import Mathlib

/-!
Verification of the Battlesnake decision engine in `lambdafunction.py`.

The data model (`Point`, `Snake`, `Board`, `Snapshot`) and the move-selection
functions (`get_safe_moves`, `is_risky_head_collision`, `find_nearest_food`,
`get_move_toward_target`, `evaluate_move_space`, `choose_best_move`) are a
shallow embedding of the Python source.  Coordinates are unbounded integers,
exactly as Python ints.  The random fallback `random.choice([...])` is
modelled by an explicit `rand : Nat` parameter that indexes into the
four-element direction list; every possible outcome of the random source
corresponds to some value of `rand`.
-/

/-- A board coordinate, equality by value (Python tuple `(x, y)`). -/
@[ext]
structure Point where
  x : Int
  y : Int
deriving DecidableEq, Repr

/-- A snake as it appears in the snapshot: id, body (head first, tail last),
head point and health. -/
structure Snake where
  id : String
  body : List Point
  head : Point
  health : Int
deriving DecidableEq, Repr

/-- The board part of the snapshot. -/
structure Board where
  width : Int
  height : Int
  food : List Point
  snakes : List Snake
deriving DecidableEq, Repr

/-- The full turn snapshot: the board plus the acting snake (`you`). -/
structure Snapshot where
  board : Board
  you : Snake
deriving DecidableEq, Repr

/-- Bounds check `0 <= nx < board_width and 0 <= ny < board_height`
(lambdafunction.py line 124). -/
def inBounds (w h : Int) (p : Point) : Prop :=
  0 ≤ p.x ∧ p.x < w ∧ 0 ≤ p.y ∧ p.y < h

instance (w h : Int) (p : Point) : Decidable (inBounds w h p) :=
  inferInstanceAs (Decidable (0 ≤ p.x ∧ p.x < w ∧ 0 ≤ p.y ∧ p.y < h))

/-- The four direction offsets in the order the flood fill scans them
(lambdafunction.py line 220): `(0, 1), (0, -1), (1, 0), (-1, 0)`. -/
def dirList : List (Int × Int) := [(0, 1), (0, -1), (1, 0), (-1, 0)]

/-- Move from `c` by offset `d`. -/
def stepP (c : Point) (d : Int × Int) : Point := ⟨c.x + d.1, c.y + d.2⟩

/-- The `moves` dict of `get_safe_moves` (lines 114-119), in Python dict
insertion order: up, down, left, right. -/
def movesOf (hd : Point) : List (String × Point) :=
  [("up", ⟨hd.x, hd.y + 1⟩), ("down", ⟨hd.x, hd.y - 1⟩),
   ("left", ⟨hd.x - 1, hd.y⟩), ("right", ⟨hd.x + 1, hd.y⟩)]

/-- Destination of a direction label from a given head position
(the same map as `movesOf`, as a function; non-direction labels are
unreachable and map to the head itself). -/
def moveDest (hd : Point) (dir : String) : Point :=
  if dir = "up" then ⟨hd.x, hd.y + 1⟩
  else if dir = "down" then ⟨hd.x, hd.y - 1⟩
  else if dir = "left" then ⟨hd.x - 1, hd.y⟩
  else if dir = "right" then ⟨hd.x + 1, hd.y⟩
  else hd

/-- The `all_snake_bodies` set of `get_safe_moves` (lines 106-111): every
body segment of every snake except each snake's last (tail) segment.
Membership in this list is the set membership of the Python set. -/
def obstaclesNoTails (snakes : List Snake) : List Point :=
  snakes.flatMap (fun sn => sn.body.dropLast)

/-- The `obstacles` set built in `choose_best_move` (lines 57-61) and passed
to `evaluate_move_space`: every body segment of every snake, tails included. -/
def spaceObstacles (s : Snapshot) : List Point :=
  s.board.snakes.flatMap (fun sn => sn.body)

/-- The four cells adjacent to an enemy head, in the order of
`enemy_possible_moves` (lines 156-161). -/
def neighborsOf (hd : Point) : List Point :=
  [⟨hd.x + 1, hd.y⟩, ⟨hd.x - 1, hd.y⟩, ⟨hd.x, hd.y + 1⟩, ⟨hd.x, hd.y - 1⟩]

/-- `is_risky_head_collision` (lines 144-167): the destination is risky when
it is adjacent to the head of some other snake (different id) whose body
length is at least the acting snake's body length. -/
def is_risky_head_collision (p : Point) (s : Snapshot) : Bool :=
  s.board.snakes.any (fun sn =>
    if sn.id = s.you.id then false
    else decide (p ∈ neighborsOf sn.head) && decide (s.you.body.length ≤ sn.body.length))

/-- The per-candidate safety test of `get_safe_moves` (lines 122-138):
in bounds, not in the obstacle set, not a risky head-to-head. -/
def safeCond (s : Snapshot) (p : Point) : Bool :=
  decide (inBounds s.board.width s.board.height p) &&
  !(decide (p ∈ obstaclesNoTails s.board.snakes)) &&
  !(is_risky_head_collision p s)

/-- `get_safe_moves` (lines 96-141): the four candidates in enumeration
order, filtered by the safety test. -/
def get_safe_moves (s : Snapshot) : List (String × Point) :=
  (movesOf s.you.head).filter (fun mp => safeCond s mp.2)

/-- Loop body of `find_nearest_food` (lines 175-182): carries the best
`(food, distance)` pair, replacing it on strict improvement. -/
def nearestLoop (hx hy : Int) (best : Option (Point × Nat)) :
    List Point → Option (Point × Nat)
  | [] => best
  | f :: rest =>
    let d := (f.x - hx).natAbs + (f.y - hy).natAbs
    match best with
    | none => nearestLoop hx hy (some (f, d)) rest
    | some (bf, bd) =>
      if d < bd then nearestLoop hx hy (some (f, d)) rest
      else nearestLoop hx hy (some (bf, bd)) rest

/-- `find_nearest_food` (lines 170-184). `None` exactly when the food list is
empty; the initial `min_distance = inf` means the first food always replaces
the initial state. -/
def find_nearest_food (hx hy : Int) (food : List Point) : Option Point :=
  if food.isEmpty then none
  else (nearestLoop hx hy none food).map (fun b => b.1)

/-- A scored candidate `(move, destination, space)` — the Python tuple
`(move, nx, ny, space)` with the two coordinates bundled into a `Point`. -/
abbrev MoveScore := String × Point × Nat

/-- Loop body of `get_move_toward_target` (lines 193-201): carries the best
`(move_name, distance)` pair, replacing it on strict improvement. -/
def towardLoop (tx ty : Int) (best : Option (String × Nat)) :
    List MoveScore → Option (String × Nat)
  | [] => best
  | mi :: rest =>
    let d := (tx - mi.2.1.x).natAbs + (ty - mi.2.1.y).natAbs
    match best with
    | none => towardLoop tx ty (some (mi.1, d)) rest
    | some (bm, bd) =>
      if d < bd then towardLoop tx ty (some (mi.1, d)) rest
      else towardLoop tx ty (some (bm, bd)) rest

/-- `get_move_toward_target` (lines 187-203). The `hx hy` parameters are
unused, exactly as in the source. -/
def get_move_toward_target (hx hy tx ty : Int) (opts : List MoveScore) :
    Option String :=
  (towardLoop tx ty none opts).map (fun b => b.1)

/-- `max(good_moves, key=lambda m: m[3])` (line 91): Python `max` keeps the
first element and replaces it only on strict key increase, so ties go to the
earliest element. -/
def maxLoop (best : MoveScore) : List MoveScore → MoveScore
  | [] => best
  | m :: rest => if best.2.2 < m.2.2 then maxLoop m rest else maxLoop best rest

/-- The direction of the space-maximal candidate; the empty case is
unreachable (Python `max` on the list only runs when it is non-empty). -/
def bestMove : List MoveScore → String
  | [] => "up"
  | m :: rest => (maxLoop m rest).1

/-- The neighbor-scan of one flood-fill iteration (lines 220-228): for each
of the four offsets in order, append the neighbor to both the queue and the
visited set when it is in bounds, unvisited and not an obstacle. -/
def expandNbrs (w h : Int) (obst : List Point) (c : Point)
    (qv : List Point × List Point) : List Point × List Point :=
  dirList.foldl (fun acc d =>
    let np := stepP c d
    if inBounds w h np ∧ np ∉ acc.2 ∧ np ∉ obst then
      (acc.1 ++ [np], acc.2 ++ [np])
    else acc) qv

/-- The `while queue and space < max_iterations` loop of
`evaluate_move_space` (lines 215-228): pop the front of the queue, count it,
and enqueue its admissible neighbors, stopping once 50 cells are counted. -/
def floodLoop (w h : Int) (obst : List Point)
    (queue visited : List Point) (space : Nat) : Nat :=
  match queue with
  | [] => space
  | c :: rest =>
    if hlt : space < 50 then
      let qv := expandNbrs w h obst c (rest, visited)
      floodLoop w h obst qv.1 qv.2 (space + 1)
    else space
termination_by 50 - space
decreasing_by omega

/-- `evaluate_move_space` (lines 206-230): flood fill from `(nx, ny)`, which
starts both the queue and the visited set, with the counter at 0. -/
def evaluate_move_space (nx ny : Int) (w h : Int) (obst : List Point) : Nat :=
  floodLoop w h obst [⟨nx, ny⟩] [⟨nx, ny⟩] 0

/-- `move_scores` (lines 64-67): each safe move with its flood-fill space
score against the tails-included obstacle set. -/
def move_scores (s : Snapshot) : List MoveScore :=
  (get_safe_moves s).map (fun mp =>
    (mp.1, mp.2,
     evaluate_move_space mp.2.x mp.2.y s.board.width s.board.height (spaceObstacles s)))

/-- `good_moves` (lines 69-75): the candidates with space score at least 5,
or all scored candidates when none reaches 5. -/
def good_moves (s : Snapshot) : List MoveScore :=
  if ((move_scores s).filter (fun m => decide (5 ≤ m.2.2))).isEmpty then move_scores s
  else (move_scores s).filter (fun m => decide (5 ≤ m.2.2))

/-- `choose_best_move` (lines 41-93).  `rand` selects the fallback direction
when no safe move exists (`random.choice` on line 49). -/
def choose_best_move (s : Snapshot) (rand : Nat) : String :=
  match get_safe_moves s with
  | [] => ["up", "down", "left", "right"].getD (rand % 4) "up"
  | _ :: _ =>
    if s.you.health < 30 ∧ s.board.food ≠ [] then
      match find_nearest_food s.you.head.x s.you.head.y s.board.food with
      | some nf =>
        match get_move_toward_target s.you.head.x s.you.head.y nf.x nf.y (good_moves s) with
        | some m => m
        | none => bestMove (good_moves s)
      | none => bestMove (good_moves s)
    else bestMove (good_moves s)

/-- Well-formedness of a turn snapshot, from §3 of the specification:
positive board dimensions, the acting snake listed on the board, unique
snake ids, non-empty bodies whose first element is the head, all body and
food coordinates in bounds, and health in 0–100. -/
def Snapshot.WF (s : Snapshot) : Prop :=
  0 < s.board.width ∧ 0 < s.board.height ∧
  s.you ∈ s.board.snakes ∧
  (s.board.snakes.map Snake.id).Nodup ∧
  (∀ sn ∈ s.board.snakes, sn.body ≠ [] ∧ sn.body.head? = some sn.head ∧
    ∀ p ∈ sn.body, inBounds s.board.width s.board.height p) ∧
  (∀ f ∈ s.board.food, inBounds s.board.width s.board.height f) ∧
  0 ≤ s.you.health ∧ s.you.health ≤ 100

instance (s : Snapshot) : Decidable s.WF := by
  unfold Snapshot.WF; infer_instance

/-! ## Specification-side notions

These definitions are written from the specification's words, to be compared
with the embedded code: the first-minimum / first-maximum selections of §4.3
and §4.4, the per-candidate safety predicate of §4.1, and 4-connected
reachability over free cells for §4.2. -/

/-- Manhattan distance key toward a food point from the head (§4.3). -/
def foodKey (hd f : Point) : Nat := (f.x - hd.x).natAbs + (f.y - hd.y).natAbs

/-- Manhattan distance key from a candidate's destination to a target (§4.3). -/
def targetKey (t : Point) (c : MoveScore) : Nat :=
  (t.x - c.2.1.x).natAbs + (t.y - c.2.1.y).natAbs

/-- The space score of a scored candidate (§4.4). -/
def spaceKey (c : MoveScore) : Nat := c.2.2

/-- `c` is the first element of `l` achieving the minimum of `key`
(the linear-scan, first-minimum tie-break of §4.3). -/
def IsFirstMinBy (key : α → Nat) : List α → α → Prop
  | [], _ => False
  | x :: xs, c => (c = x ∧ ∀ y ∈ xs, key x ≤ key y) ∨
      (key c < key x ∧ IsFirstMinBy key xs c)

instance instDecIsFirstMinBy (key : α → Nat) [DecidableEq α] :
    ∀ (l : List α) (c : α), Decidable (IsFirstMinBy key l c)
  | [], c => by unfold IsFirstMinBy; exact inferInstance
  | x :: xs, c => by
      unfold IsFirstMinBy
      have := instDecIsFirstMinBy key xs c
      exact inferInstance

/-- `c` is the first element of `l` achieving the maximum of `key`
(the first-maximum tie-break of §4.4 step 5). -/
def IsFirstMaxBy (key : α → Nat) : List α → α → Prop
  | [], _ => False
  | x :: xs, c => (c = x ∧ ∀ y ∈ xs, key y ≤ key x) ∨
      (key x < key c ∧ IsFirstMaxBy key xs c)

instance instDecIsFirstMaxBy (key : α → Nat) [DecidableEq α] :
    ∀ (l : List α) (c : α), Decidable (IsFirstMaxBy key l c)
  | [], c => by unfold IsFirstMaxBy; exact inferInstance
  | x :: xs, c => by
      unfold IsFirstMaxBy
      have := instDecIsFirstMaxBy key xs c
      exact inferInstance

/-- The per-candidate safety predicate of §4.1, stated from the
specification: destination inside `[0, width) × [0, height)`, not among any
snake's body segments except each snake's last one, and not 4-adjacent to
the head of another snake at least as long as the acting snake. -/
def SpecSafe (s : Snapshot) (p : Point) : Prop :=
  inBounds s.board.width s.board.height p ∧
  (¬ ∃ sn ∈ s.board.snakes, ∃ i : Fin sn.body.length,
      (i : Nat) + 1 < sn.body.length ∧ sn.body.get i = p) ∧
  (¬ ∃ sn ∈ s.board.snakes, sn.id ≠ s.you.id ∧
      (p.x - sn.head.x).natAbs + (p.y - sn.head.y).natAbs = 1 ∧
      s.you.body.length ≤ sn.body.length)

instance (s : Snapshot) (p : Point) : Decidable (SpecSafe s p) := by
  unfold SpecSafe; infer_instance

/-- 4-connected reachability through free cells (§4.2): the start is always
reachable, and reachability extends across one step to an in-bounds,
non-obstacle cell.  For an in-bounds, non-obstacle start this is exactly the
4-connected component of free cells containing the start. -/
inductive Reaches (w h : Int) (obst : List Point) (start : Point) : Point → Prop
  | refl : Reaches w h obst start start
  | step {p q : Point} : Reaches w h obst start p → inBounds w h q →
      q ∉ obst → (∃ d ∈ dirList, q = stepP p d) → Reaches w h obst start q

/-! ## Concrete snapshots used by witnesses and counterexamples -/

/-- A 3×3 board with a single length-2 snake at (1,1) with its tail at
(1,0), healthy and with no food in sight. -/
def exA3 : Snapshot :=
  { board := { width := 3, height := 3, food := [],
               snakes := [{ id := "me", body := [⟨1, 1⟩, ⟨1, 0⟩],
                            head := ⟨1, 1⟩, health := 90 }] },
    you := { id := "me", body := [⟨1, 1⟩, ⟨1, 0⟩], head := ⟨1, 1⟩, health := 90 } }

/-- The same 3×3 position, but hungry (health 10) with food at (2,1). -/
def exB : Snapshot :=
  { board := { width := 3, height := 3, food := [⟨2, 1⟩],
               snakes := [{ id := "me", body := [⟨1, 1⟩, ⟨1, 0⟩],
                            head := ⟨1, 1⟩, health := 10 }] },
    you := { id := "me", body := [⟨1, 1⟩, ⟨1, 0⟩], head := ⟨1, 1⟩, health := 10 } }

/-- A 1×2 board: the acting snake (length 1) sits at (0,0) and a longer
snake occupies (0,1).  Three candidate destinations are out of bounds and
the fourth is in the obstacle set, so no safe move exists, yet the
out-of-bounds candidates avoid every obstacle cell. -/
def exC1 : Snapshot :=
  { board := { width := 1, height := 2, food := [],
               snakes := [{ id := "a", body := [⟨0, 0⟩], head := ⟨0, 0⟩, health := 90 },
                          { id := "b", body := [⟨0, 1⟩, ⟨0, 1⟩],
                            head := ⟨0, 1⟩, health := 90 }] },
    you := { id := "a", body := [⟨0, 0⟩], head := ⟨0, 0⟩, health := 90 } }

/-- A 1×1 board with a hungry snake and food under its own head: every
candidate destination is out of bounds, so no safe move exists while the
food-seeking condition (health below 30, food present) holds. -/
def exHungryTrapped : Snapshot :=
  { board := { width := 1, height := 1, food := [⟨0, 0⟩],
               snakes := [{ id := "me", body := [⟨0, 0⟩], head := ⟨0, 0⟩, health := 10 }] },
    you := { id := "me", body := [⟨0, 0⟩], head := ⟨0, 0⟩, health := 10 } }

/-- A 1×1 board with a healthy snake and no food: no safe move exists and
the food-seeking branch is not taken. -/
def exHealthyTrapped : Snapshot :=
  { board := { width := 1, height := 1, food := [],
               snakes := [{ id := "me", body := [⟨0, 0⟩], head := ⟨0, 0⟩, health := 100 }] },
    you := { id := "me", body := [⟨0, 0⟩], head := ⟨0, 0⟩, health := 100 } }

/-! ## Lemmas about the linear scans -/

lemma isFirstMinBy_mem_le (key : α → Nat) :
    ∀ {l : List α} {c : α}, IsFirstMinBy key l c →
      c ∈ l ∧ ∀ y ∈ l, key c ≤ key y := by
  intro l
  induction l with
  | nil => intro c h; simp [IsFirstMinBy] at h
  | cons x xs ih =>
    intro c h
    rw [IsFirstMinBy] at h
    rcases h with ⟨rfl, hmin⟩ | ⟨hlt, hfm⟩
    · refine ⟨List.mem_cons_self _ _, ?_⟩
      intro y hy
      rcases List.mem_cons.mp hy with rfl | hy
      · exact le_rfl
      · exact hmin y hy
    · obtain ⟨hmem, hle⟩ := ih hfm
      refine ⟨List.mem_cons_of_mem _ hmem, ?_⟩
      intro y hy
      rcases List.mem_cons.mp hy with rfl | hy
      · exact le_of_lt hlt
      · exact hle y hy

lemma isFirstMaxBy_mem_ge (key : α → Nat) :
    ∀ {l : List α} {c : α}, IsFirstMaxBy key l c →
      c ∈ l ∧ ∀ y ∈ l, key y ≤ key c := by
  intro l
  induction l with
  | nil => intro c h; simp [IsFirstMaxBy] at h
  | cons x xs ih =>
    intro c h
    rw [IsFirstMaxBy] at h
    rcases h with ⟨rfl, hmax⟩ | ⟨hlt, hfm⟩
    · refine ⟨List.mem_cons_self _ _, ?_⟩
      intro y hy
      rcases List.mem_cons.mp hy with rfl | hy
      · exact le_rfl
      · exact hmax y hy
    · obtain ⟨hmem, hge⟩ := ih hfm
      refine ⟨List.mem_cons_of_mem _ hmem, ?_⟩
      intro y hy
      rcases List.mem_cons.mp hy with rfl | hy
      · exact le_of_lt hlt
      · exact hge y hy

lemma nearestLoop_firstMin (hx hy : Int) :
    ∀ (l : List Point) (b : Point),
      ∃ c, nearestLoop hx hy (some (b, (b.x - hx).natAbs + (b.y - hy).natAbs)) l
              = some (c, (c.x - hx).natAbs + (c.y - hy).natAbs) ∧
        IsFirstMinBy (fun f => (f.x - hx).natAbs + (f.y - hy).natAbs) (b :: l) c := by
  intro l
  induction l with
  | nil =>
    intro b
    exact ⟨b, rfl, by rw [IsFirstMinBy]; exact Or.inl ⟨rfl, by simp⟩⟩
  | cons f rest ih =>
    intro b
    by_cases hcmp : (f.x - hx).natAbs + (f.y - hy).natAbs
        < (b.x - hx).natAbs + (b.y - hy).natAbs
    · obtain ⟨c, heq, hfm⟩ := ih f
      refine ⟨c, ?_, ?_⟩
      · rw [nearestLoop]; simp only [hcmp, if_pos]; exact heq
      · rw [IsFirstMinBy]
        refine Or.inr ⟨?_, hfm⟩
        have hle := (isFirstMinBy_mem_le _ hfm).2 f (List.mem_cons_self _ _)
        exact lt_of_le_of_lt hle hcmp
    · obtain ⟨c, heq, hfm⟩ := ih b
      refine ⟨c, ?_, ?_⟩
      · rw [nearestLoop]; simp only [hcmp, if_neg, if_false]; exact heq
      · rw [IsFirstMinBy] at hfm ⊢
        rcases hfm with ⟨rfl, hmin⟩ | ⟨hlt, hfm'⟩
        · refine Or.inl ⟨rfl, ?_⟩
          intro y hy
          rcases List.mem_cons.mp hy with rfl | hy
          · exact le_of_not_lt hcmp
          · exact hmin y hy
        · refine Or.inr ⟨hlt, ?_⟩
          rw [IsFirstMinBy]
          exact Or.inr ⟨lt_of_lt_of_le hlt (le_of_not_lt hcmp), hfm'⟩

lemma find_nearest_food_spec (hx hy : Int) (food : List Point) (hne : food ≠ []) :
    ∃ c, find_nearest_food hx hy food = some c ∧
      IsFirstMinBy (fun f => (f.x - hx).natAbs + (f.y - hy).natAbs) food c := by
  match food, hne with
  | f :: rest, _ =>
    obtain ⟨c, heq, hfm⟩ := nearestLoop_firstMin hx hy rest f
    refine ⟨c, ?_, hfm⟩
    rw [find_nearest_food]
    simp only [List.isEmpty_cons, if_false, Bool.false_eq_true]
    rw [nearestLoop]
    simp [heq]

lemma towardLoop_min (tx ty : Int) :
    ∀ (l : List MoveScore) (b : MoveScore),
      ∃ c ∈ b :: l,
        towardLoop tx ty (some (b.1, (tx - b.2.1.x).natAbs + (ty - b.2.1.y).natAbs)) l
            = some (c.1, (tx - c.2.1.x).natAbs + (ty - c.2.1.y).natAbs) ∧
        ∀ x ∈ b :: l, (tx - c.2.1.x).natAbs + (ty - c.2.1.y).natAbs
            ≤ (tx - x.2.1.x).natAbs + (ty - x.2.1.y).natAbs := by
  intro l
  induction l with
  | nil =>
    intro b
    exact ⟨b, List.mem_cons_self _ _, rfl, by simp⟩
  | cons m rest ih =>
    intro b
    by_cases hcmp : (tx - m.2.1.x).natAbs + (ty - m.2.1.y).natAbs
        < (tx - b.2.1.x).natAbs + (ty - b.2.1.y).natAbs
    · obtain ⟨c, hc, heq, hmin⟩ := ih m
      refine ⟨c, ?_, ?_, ?_⟩
      · exact List.mem_cons_of_mem _ hc
      · rw [towardLoop]; simp only [hcmp, if_pos]; exact heq
      · intro x hx'
        rcases List.mem_cons.mp hx' with rfl | hx'
        · exact le_of_lt (lt_of_le_of_lt (hmin m (List.mem_cons_self _ _)) hcmp)
        · exact hmin x hx'
    · obtain ⟨c, hc, heq, hmin⟩ := ih b
      refine ⟨c, ?_, ?_, ?_⟩
      · rcases List.mem_cons.mp hc with rfl | hc
        · exact List.mem_cons_self _ _
        · exact List.mem_cons_of_mem _ (List.mem_cons_of_mem _ hc)
      · rw [towardLoop]; simp only [hcmp, if_neg, if_false]; exact heq
      · intro x hx'
        rcases List.mem_cons.mp hx' with hbx | hx'
        · rw [hbx]
          exact hmin b (List.mem_cons_self _ _)
        · rcases List.mem_cons.mp hx' with hmx | hx''
          · rw [hmx]
            exact le_trans (hmin b (List.mem_cons_self _ _)) (le_of_not_lt hcmp)
          · exact hmin _ (List.mem_cons_of_mem _ hx'')

lemma get_move_toward_target_spec (hx hy tx ty : Int) (opts : List MoveScore)
    (hne : opts ≠ []) :
    ∃ c ∈ opts, get_move_toward_target hx hy tx ty opts = some c.1 ∧
      ∀ x ∈ opts, (tx - c.2.1.x).natAbs + (ty - c.2.1.y).natAbs
          ≤ (tx - x.2.1.x).natAbs + (ty - x.2.1.y).natAbs := by
  match opts, hne with
  | b :: rest, _ =>
    obtain ⟨c, hc, heq, hmin⟩ := towardLoop_min tx ty rest b
    refine ⟨c, hc, ?_, hmin⟩
    rw [get_move_toward_target, towardLoop]
    simp [heq]

lemma maxLoop_firstMax :
    ∀ (l : List MoveScore) (b : MoveScore),
      IsFirstMaxBy spaceKey (b :: l) (maxLoop b l) := by
  intro l
  induction l with
  | nil =>
    intro b
    rw [maxLoop, IsFirstMaxBy]
    exact Or.inl ⟨rfl, by simp⟩
  | cons m rest ih =>
    intro b
    rw [maxLoop]
    by_cases hcmp : b.2.2 < m.2.2
    · simp only [hcmp, if_pos]
      have hfm := ih m
      rw [IsFirstMaxBy]
      refine Or.inr ⟨?_, hfm⟩
      have hge := (isFirstMaxBy_mem_ge spaceKey hfm).2 m (List.mem_cons_self _ _)
      exact lt_of_lt_of_le hcmp hge
    · simp only [hcmp, if_neg, if_false]
      have hfm := ih b
      rw [IsFirstMaxBy] at hfm ⊢
      rcases hfm with ⟨heqb, hmax⟩ | ⟨hlt, hfm'⟩
      · refine Or.inl ⟨heqb, ?_⟩
        intro y hy
        rcases List.mem_cons.mp hy with rfl | hy
        · exact le_of_not_lt hcmp
        · exact hmax y hy
      · refine Or.inr ⟨hlt, ?_⟩
        rw [IsFirstMaxBy]
        exact Or.inr ⟨lt_of_le_of_lt (le_of_not_lt hcmp) hlt, hfm'⟩

/-! ## Lemmas about the safety filter and the selector -/

lemma moveDest_up (hd : Point) : moveDest hd "up" = ⟨hd.x, hd.y + 1⟩ := rfl

lemma moveDest_down (hd : Point) : moveDest hd "down" = ⟨hd.x, hd.y - 1⟩ := rfl

lemma moveDest_left (hd : Point) : moveDest hd "left" = ⟨hd.x - 1, hd.y⟩ := rfl

lemma moveDest_right (hd : Point) : moveDest hd "right" = ⟨hd.x + 1, hd.y⟩ := rfl

lemma mem_movesOf {hd : Point} {mp : String × Point} (h : mp ∈ movesOf hd) :
    moveDest hd mp.1 = mp.2 ∧ mp.1 ∈ (["up", "down", "left", "right"] : List String) := by
  simp only [movesOf, List.mem_cons, List.not_mem_nil, or_false] at h
  rcases h with h | h | h | h
  · rw [h]; exact ⟨rfl, by simp⟩
  · rw [h]; exact ⟨rfl, by simp⟩
  · rw [h]; exact ⟨rfl, by simp⟩
  · rw [h]; exact ⟨rfl, by simp⟩

lemma mem_safe_iff {s : Snapshot} {mp : String × Point} :
    mp ∈ get_safe_moves s ↔ mp ∈ movesOf s.you.head ∧ safeCond s mp.2 = true := by
  rw [get_safe_moves]
  exact List.mem_filter

lemma safe_mem_props {s : Snapshot} {mp : String × Point} (h : mp ∈ get_safe_moves s) :
    mp ∈ movesOf s.you.head ∧ inBounds s.board.width s.board.height mp.2 ∧
      mp.2 ∉ obstaclesNoTails s.board.snakes ∧ is_risky_head_collision mp.2 s = false := by
  obtain ⟨hmem, hcond⟩ := mem_safe_iff.mp h
  rw [safeCond] at hcond
  simp only [Bool.and_eq_true, Bool.not_eq_true', decide_eq_true_eq,
    decide_eq_false_iff_not] at hcond
  exact ⟨hmem, hcond.1.1, hcond.1.2, hcond.2⟩

lemma mem_move_scores {s : Snapshot} {c : MoveScore} (h : c ∈ move_scores s) :
    (c.1, c.2.1) ∈ get_safe_moves s ∧
      c.2.2 = evaluate_move_space c.2.1.x c.2.1.y s.board.width s.board.height
        (spaceObstacles s) := by
  rw [move_scores] at h
  obtain ⟨mp, hmp, heq⟩ := List.mem_map.mp h
  rw [← heq]
  refine ⟨?_, rfl⟩
  simpa using hmp

lemma mem_good_moves {s : Snapshot} {c : MoveScore} (h : c ∈ good_moves s) :
    c ∈ move_scores s := by
  rw [good_moves] at h
  split_ifs at h
  · exact h
  · exact (List.mem_filter.mp h).1

lemma good_moves_ne_nil {s : Snapshot} (h : get_safe_moves s ≠ []) :
    good_moves s ≠ [] := by
  rw [good_moves]
  split_ifs with hemp
  · rw [move_scores]
    simpa using h
  · simpa [List.isEmpty_iff] using hemp

lemma bestMove_spec {l : List MoveScore} (h : l ≠ []) :
    ∃ c ∈ l, bestMove l = c.1 ∧ IsFirstMaxBy spaceKey l c := by
  match l, h with
  | m :: rest, _ =>
    refine ⟨maxLoop m rest, ?_, rfl, maxLoop_firstMax rest m⟩
    exact (isFirstMaxBy_mem_ge spaceKey (maxLoop_firstMax rest m)).1

lemma choose_mem_good {s : Snapshot} (r : Nat) (h : get_safe_moves s ≠ []) :
    ∃ c ∈ good_moves s, choose_best_move s r = c.1 := by
  rcases hq : get_safe_moves s with _ | ⟨m0, rest⟩
  · exact absurd hq h
  · have hg := good_moves_ne_nil h
    simp only [choose_best_move, hq]
    by_cases hcond : s.you.health < 30 ∧ s.board.food ≠ []
    · rw [if_pos hcond]
      obtain ⟨nf, hnf, _⟩ :=
        find_nearest_food_spec s.you.head.x s.you.head.y s.board.food hcond.2
      obtain ⟨c, hc, heq, _⟩ := get_move_toward_target_spec s.you.head.x s.you.head.y
        nf.x nf.y (good_moves s) hg
      simp only [hnf, heq]
      exact ⟨c, hc, rfl⟩
    · rw [if_neg hcond]
      obtain ⟨c, hc, hb, _⟩ := bestMove_spec hg
      exact ⟨c, hc, hb⟩

/-! ## Lemmas about the flood fill -/

lemma floodLoop_nil (w h : Int) (obst : List Point) (V : List Point) (space : Nat) :
    floodLoop w h obst [] V space = space := by
  rw [floodLoop]

lemma floodLoop_cons (w h : Int) (obst : List Point) (c : Point) (rest V : List Point)
    (space : Nat) (hlt : space < 50) :
    floodLoop w h obst (c :: rest) V space
      = floodLoop w h obst (expandNbrs w h obst c (rest, V)).1
          (expandNbrs w h obst c (rest, V)).2 (space + 1) := by
  rw [floodLoop]
  simp [hlt]

lemma floodLoop_cons_stop (w h : Int) (obst : List Point) (c : Point) (rest V : List Point)
    (space : Nat) (hge : ¬ space < 50) :
    floodLoop w h obst (c :: rest) V space = space := by
  rw [floodLoop]
  simp [hge]

lemma floodLoop_ge (w h : Int) (obst : List Point) :
    ∀ (n : Nat) (Q V : List Point) (space : Nat), 50 - space ≤ n →
      space ≤ floodLoop w h obst Q V space := by
  intro n
  induction n with
  | zero =>
    intro Q V space hn
    rcases Q with _ | ⟨c, rest⟩
    · rw [floodLoop_nil]
    · rw [floodLoop_cons_stop w h obst c rest V space (by omega)]
  | succ k ih =>
    intro Q V space hn
    rcases Q with _ | ⟨c, rest⟩
    · rw [floodLoop_nil]
    · by_cases hlt : space < 50
      · rw [floodLoop_cons w h obst c rest V space hlt]
        have := ih (expandNbrs w h obst c (rest, V)).1
          (expandNbrs w h obst c (rest, V)).2 (space + 1) (by omega)
        omega
      · rw [floodLoop_cons_stop w h obst c rest V space hlt]

lemma floodLoop_le (w h : Int) (obst : List Point) :
    ∀ (n : Nat) (Q V : List Point) (space : Nat), 50 - space ≤ n → space ≤ 50 →
      floodLoop w h obst Q V space ≤ 50 := by
  intro n
  induction n with
  | zero =>
    intro Q V space hn hle
    rcases Q with _ | ⟨c, rest⟩
    · rw [floodLoop_nil]; exact hle
    · rw [floodLoop_cons_stop w h obst c rest V space (by omega)]; exact hle
  | succ k ih =>
    intro Q V space hn hle
    rcases Q with _ | ⟨c, rest⟩
    · rw [floodLoop_nil]; exact hle
    · by_cases hlt : space < 50
      · rw [floodLoop_cons w h obst c rest V space hlt]
        exact ih _ _ (space + 1) (by omega) (by omega)
      · rw [floodLoop_cons_stop w h obst c rest V space hlt]; exact hle

lemma expandAux_spec (w h : Int) (obst : List Point) (c : Point) :
    ∀ (ds : List (Int × Int)) (Q V : List Point),
      ∃ A : List Point,
        List.foldl (fun acc d =>
          let np := stepP c d
          if inBounds w h np ∧ np ∉ acc.2 ∧ np ∉ obst then
            (acc.1 ++ [np], acc.2 ++ [np])
          else acc) (Q, V) ds = (Q ++ A, V ++ A) ∧
        A.Nodup ∧ (∀ p ∈ A, p ∉ V) ∧
        (∀ p ∈ A, inBounds w h p ∧ p ∉ obst ∧ ∃ d ∈ ds, p = stepP c d) ∧
        (∀ d ∈ ds, inBounds w h (stepP c d) → stepP c d ∉ obst →
          stepP c d ∈ V ∨ stepP c d ∈ A) := by
  intro ds
  induction ds with
  | nil =>
    intro Q V
    exact ⟨[], by simp, List.nodup_nil, by simp, by simp, by simp⟩
  | cons d ds ih =>
    intro Q V
    rw [List.foldl_cons]
    by_cases hcond : inBounds w h (stepP c d) ∧ stepP c d ∉ V ∧ stepP c d ∉ obst
    · obtain ⟨A', hfold, hnd, hnotin, hprops, hcover⟩ := ih (Q ++ [stepP c d]) (V ++ [stepP c d])
      refine ⟨stepP c d :: A', ?_, ?_, ?_, ?_, ?_⟩
      · show List.foldl _ (if inBounds w h (stepP c d) ∧ stepP c d ∉ V ∧ stepP c d ∉ obst
            then (Q ++ [stepP c d], V ++ [stepP c d]) else (Q, V)) ds = _
        rw [if_pos hcond, hfold]
        simp [List.append_assoc]
      · rw [List.nodup_cons]
        refine ⟨fun hmem => hnotin _ hmem (by simp), hnd⟩
      · intro p hp
        rcases List.mem_cons.mp hp with rfl | hp
        · exact hcond.2.1
        · intro hV
          exact hnotin p hp (List.mem_append_left _ hV)
      · intro p hp
        rcases List.mem_cons.mp hp with rfl | hp
        · exact ⟨hcond.1, hcond.2.2, d, List.mem_cons_self _ _, rfl⟩
        · obtain ⟨hb, hno, d', hd', hpd⟩ := hprops p hp
          exact ⟨hb, hno, d', List.mem_cons_of_mem _ hd', hpd⟩
      · intro d' hd' hb hno
        rcases List.mem_cons.mp hd' with rfl | hd'
        · exact Or.inr (List.mem_cons_self _ _)
        · rcases hcover d' hd' hb hno with h' | h'
          · rcases List.mem_append.mp h' with h'' | h''
            · exact Or.inl h''
            · rw [List.mem_singleton] at h''
              rw [h'']
              exact Or.inr (List.mem_cons_self _ _)
          · exact Or.inr (List.mem_cons_of_mem _ h')
    · obtain ⟨A', hfold, hnd, hnotin, hprops, hcover⟩ := ih Q V
      refine ⟨A', ?_, hnd, hnotin, ?_, ?_⟩
      · show List.foldl _ (if inBounds w h (stepP c d) ∧ stepP c d ∉ V ∧ stepP c d ∉ obst
            then (Q ++ [stepP c d], V ++ [stepP c d]) else (Q, V)) ds = _
        rw [if_neg hcond]
        exact hfold
      · intro p hp
        obtain ⟨hb, hno, d', hd', hpd⟩ := hprops p hp
        exact ⟨hb, hno, d', List.mem_cons_of_mem _ hd', hpd⟩
      · intro d' hd' hb hno
        rcases List.mem_cons.mp hd' with rfl | hd'
        · left
          by_contra hnotV
          exact hcond ⟨hb, hnotV, hno⟩
        · rcases hcover d' hd' hb hno with h' | h'
          · exact Or.inl h'
          · exact Or.inr h'

lemma expandNbrs_spec (w h : Int) (obst : List Point) (c : Point) (Q V : List Point) :
    ∃ A : List Point,
      expandNbrs w h obst c (Q, V) = (Q ++ A, V ++ A) ∧
      A.Nodup ∧ (∀ p ∈ A, p ∉ V) ∧
      (∀ p ∈ A, inBounds w h p ∧ p ∉ obst ∧ ∃ d ∈ dirList, p = stepP c d) ∧
      (∀ d ∈ dirList, inBounds w h (stepP c d) → stepP c d ∉ obst →
        stepP c d ∈ V ∨ stepP c d ∈ A) := by
  obtain ⟨A, hfold, h2, h3, h4, h5⟩ := expandAux_spec w h obst c dirList Q V
  exact ⟨A, by rw [expandNbrs]; exact hfold, h2, h3, h4, h5⟩

lemma nodup_subset_length_le {V L : List Point} (hV : V.Nodup)
    (hsub : ∀ p ∈ V, p ∈ L) : V.length ≤ L.length := by
  calc V.length = V.toFinset.card := (List.toFinset_card_of_nodup hV).symm
    _ ≤ L.toFinset.card := by
        apply Finset.card_le_card
        intro a ha
        rw [List.mem_toFinset] at ha
        rw [List.mem_toFinset]
        exact hsub a ha
    _ ≤ L.length := L.toFinset_card_le

lemma nodup_same_mem_length {V L : List Point} (hV : V.Nodup) (hL : L.Nodup)
    (hiff : ∀ p, p ∈ V ↔ p ∈ L) : V.length = L.length :=
  le_antisymm (nodup_subset_length_le hV (fun p hp => (hiff p).mp hp))
    (nodup_subset_length_le hL (fun p hp => (hiff p).mpr hp))

lemma reaches_mem_closed {w h : Int} {obst : List Point} {s0 : Point} {V : List Point}
    (hs : s0 ∈ V)
    (hcl : ∀ p ∈ V, ∀ d ∈ dirList, inBounds w h (stepP p d) → stepP p d ∉ obst →
      stepP p d ∈ V) :
    ∀ p, Reaches w h obst s0 p → p ∈ V := by
  intro p hp
  induction hp with
  | refl => exact hs
  | step hr hb hno hadj ih =>
    obtain ⟨d, hd, rfl⟩ := hadj
    exact hcl _ ih d hd hb hno

lemma floodLoop_exact (w h : Int) (obst : List Point) (s0 : Point) (L : List Point)
    (hLnd : L.Nodup) (hLiff : ∀ p, p ∈ L ↔ Reaches w h obst s0 p)
    (hLlt : L.length < 50) :
    ∀ (n : Nat) (Q V : List Point) (space : Nat), 50 - space ≤ n →
      Q.Nodup → V.Nodup → (∀ q ∈ Q, q ∈ V) → s0 ∈ V →
      V.length = space + Q.length →
      (∀ p ∈ V, Reaches w h obst s0 p) →
      (∀ p ∈ V, ∀ d ∈ dirList, inBounds w h (stepP p d) → stepP p d ∉ obst →
        stepP p d ∈ V ∨ p ∈ Q) →
      floodLoop w h obst Q V space = L.length := by
  intro n
  induction n with
  | zero =>
    intro Q V space hn _ hVnd hQV hs0 hlen hsound hfront
    rcases Q with _ | ⟨c, rest⟩
    · rw [floodLoop_nil]
      have hclosed : ∀ p ∈ V, ∀ d ∈ dirList, inBounds w h (stepP p d) →
          stepP p d ∉ obst → stepP p d ∈ V := fun p hp d hd hb hno =>
        (hfront p hp d hd hb hno).resolve_right (List.not_mem_nil p)
      have hiff : ∀ p, p ∈ V ↔ p ∈ L := fun p =>
        ⟨fun hp => (hLiff p).mpr (hsound p hp),
         fun hp => reaches_mem_closed hs0 hclosed p ((hLiff p).mp hp)⟩
      have hVL := nodup_same_mem_length hVnd hLnd hiff
      simp only [List.length_nil, Nat.add_zero] at hlen
      omega
    · exfalso
      have hsub : V.length ≤ L.length :=
        nodup_subset_length_le hVnd (fun p hp => (hLiff p).mpr (hsound p hp))
      simp only [List.length_cons] at hlen
      omega
  | succ k ih =>
    intro Q V space hn hQnd hVnd hQV hs0 hlen hsound hfront
    rcases Q with _ | ⟨c, rest⟩
    · rw [floodLoop_nil]
      have hclosed : ∀ p ∈ V, ∀ d ∈ dirList, inBounds w h (stepP p d) →
          stepP p d ∉ obst → stepP p d ∈ V := fun p hp d hd hb hno =>
        (hfront p hp d hd hb hno).resolve_right (List.not_mem_nil p)
      have hiff : ∀ p, p ∈ V ↔ p ∈ L := fun p =>
        ⟨fun hp => (hLiff p).mpr (hsound p hp),
         fun hp => reaches_mem_closed hs0 hclosed p ((hLiff p).mp hp)⟩
      have hVL := nodup_same_mem_length hVnd hLnd hiff
      simp only [List.length_nil, Nat.add_zero] at hlen
      omega
    · by_cases hlt : space < 50
      · rw [floodLoop_cons w h obst c rest V space hlt]
        obtain ⟨A, hexp, hAnd, hAnotV, hAprops, hAcover⟩ := expandNbrs_spec w h obst c rest V
        rw [hexp]
        have hcV : c ∈ V := hQV c (List.mem_cons_self _ _)
        have hrestnd : rest.Nodup := (List.nodup_cons.mp hQnd).2
        have hcrest : c ∉ rest := (List.nodup_cons.mp hQnd).1
        apply ih
        · omega
        · exact List.Nodup.append hrestnd hAnd
            (fun a ha hA => hAnotV a hA (hQV a (List.mem_cons_of_mem _ ha)))
        · exact List.Nodup.append hVnd hAnd (fun a ha hA => hAnotV a hA ha)
        · intro q hq
          rcases List.mem_append.mp hq with hq | hq
          · exact List.mem_append_left _ (hQV q (List.mem_cons_of_mem _ hq))
          · exact List.mem_append_right _ hq
        · exact List.mem_append_left _ hs0
        · simp only [List.length_append, List.length_cons] at hlen ⊢
          omega
        · intro p hp
          rcases List.mem_append.mp hp with hp | hp
          · exact hsound p hp
          · obtain ⟨hb, hno, d, hd, rfl⟩ := hAprops p hp
            exact Reaches.step (hsound c hcV) hb hno ⟨d, hd, rfl⟩
        · intro p hp d hd hb hno
          rcases List.mem_append.mp hp with hp | hp
          · by_cases hpc : p = c
            · subst hpc
              rcases hAcover d hd hb hno with h' | h'
              · exact Or.inl (List.mem_append_left _ h')
              · exact Or.inl (List.mem_append_right _ h')
            · rcases hfront p hp d hd hb hno with h' | h'
              · exact Or.inl (List.mem_append_left _ h')
              · rcases List.mem_cons.mp h' with h'' | h''
                · exact absurd h'' hpc
                · exact Or.inr (List.mem_append_left _ h'')
          · exact Or.inr (List.mem_append_right _ hp)
      · exfalso
        have hsub : V.length ≤ L.length :=
          nodup_subset_length_le hVnd (fun p hp => (hLiff p).mpr (hsound p hp))
        simp only [List.length_cons] at hlen
        omega

lemma evaluate_move_space_le (nx ny w h : Int) (obst : List Point) :
    evaluate_move_space nx ny w h obst ≤ 50 := by
  rw [evaluate_move_space]
  exact floodLoop_le w h obst 50 _ _ 0 (by omega) (by omega)

lemma evaluate_move_space_ge_one (nx ny w h : Int) (obst : List Point) :
    1 ≤ evaluate_move_space nx ny w h obst := by
  rw [evaluate_move_space, floodLoop_cons w h obst _ [] _ 0 (by omega)]
  exact floodLoop_ge w h obst 50 _ _ 1 (by omega)

lemma evaluate_move_space_exact (nx ny w h : Int) (obst : List Point) (L : List Point)
    (hLnd : L.Nodup) (hLiff : ∀ p, p ∈ L ↔ Reaches w h obst ⟨nx, ny⟩ p)
    (hLlt : L.length < 50) :
    evaluate_move_space nx ny w h obst = L.length := by
  rw [evaluate_move_space]
  apply floodLoop_exact w h obst ⟨nx, ny⟩ L hLnd hLiff hLlt 50
  · omega
  · exact List.nodup_singleton _
  · exact List.nodup_singleton _
  · intro q hq; exact hq
  · exact List.mem_singleton.mpr rfl
  · simp
  · intro p hp
    rw [List.mem_singleton] at hp
    rw [hp]
    exact Reaches.refl
  · intro p hp _ _ _ _
    exact Or.inr hp

/-! ## Bridging the embedded safety test with the specification predicate -/

lemma mem_dropLast_iff {l : List Point} {p : Point} :
    p ∈ l.dropLast ↔ ∃ i : Fin l.length, (i : Nat) + 1 < l.length ∧ l.get i = p := by
  rw [List.dropLast_eq_take, List.mem_take_iff_getElem]
  constructor
  · rintro ⟨i, hi, rfl⟩
    have h1 := Nat.lt_of_lt_of_le hi (min_le_left _ _)
    have h2 := Nat.lt_of_lt_of_le hi (min_le_right _ _)
    refine ⟨⟨i, h2⟩, ?_, by simp⟩
    simp only [Fin.val_mk]
    omega
  · rintro ⟨⟨i, hi⟩, hlt, rfl⟩
    simp only [Fin.val_mk] at hlt
    refine ⟨i, ?_, by simp⟩
    rw [Nat.lt_min]
    exact ⟨by omega, hi⟩

lemma mem_obstaclesNoTails_iff {snakes : List Snake} {p : Point} :
    p ∈ obstaclesNoTails snakes ↔
      ∃ sn ∈ snakes, ∃ i : Fin sn.body.length, (i : Nat) + 1 < sn.body.length ∧
        sn.body.get i = p := by
  rw [obstaclesNoTails, List.mem_flatMap]
  constructor
  · rintro ⟨sn, hsn, hp⟩
    exact ⟨sn, hsn, mem_dropLast_iff.mp hp⟩
  · rintro ⟨sn, hsn, hi⟩
    exact ⟨sn, hsn, mem_dropLast_iff.mpr hi⟩

lemma mem_neighborsOf_iff {hd p : Point} :
    p ∈ neighborsOf hd ↔ (p.x - hd.x).natAbs + (p.y - hd.y).natAbs = 1 := by
  rw [neighborsOf]
  simp only [List.mem_cons, List.not_mem_nil, or_false]
  constructor
  · rintro (rfl | rfl | rfl | rfl) <;> simp
  · intro habs
    have hcase : (p.x - hd.x = 1 ∧ p.y - hd.y = 0) ∨ (p.x - hd.x = -1 ∧ p.y - hd.y = 0) ∨
        (p.x - hd.x = 0 ∧ p.y - hd.y = 1) ∨ (p.x - hd.x = 0 ∧ p.y - hd.y = -1) := by
      omega
    rcases hcase with ⟨h1, h2⟩ | ⟨h1, h2⟩ | ⟨h1, h2⟩ | ⟨h1, h2⟩
    · exact Or.inl (Point.ext (show p.x = hd.x + 1 by omega) (show p.y = hd.y by omega))
    · exact Or.inr (Or.inl
        (Point.ext (show p.x = hd.x - 1 by omega) (show p.y = hd.y by omega)))
    · exact Or.inr (Or.inr (Or.inl
        (Point.ext (show p.x = hd.x by omega) (show p.y = hd.y + 1 by omega))))
    · exact Or.inr (Or.inr (Or.inr
        (Point.ext (show p.x = hd.x by omega) (show p.y = hd.y - 1 by omega))))

lemma risky_iff {s : Snapshot} {p : Point} :
    is_risky_head_collision p s = true ↔
      ∃ sn ∈ s.board.snakes, sn.id ≠ s.you.id ∧
        (p.x - sn.head.x).natAbs + (p.y - sn.head.y).natAbs = 1 ∧
        s.you.body.length ≤ sn.body.length := by
  rw [is_risky_head_collision, List.any_eq_true]
  constructor
  · rintro ⟨sn, hsn, hcond⟩
    by_cases hid : sn.id = s.you.id
    · rw [if_pos hid] at hcond
      exact absurd hcond (by simp)
    · rw [if_neg hid] at hcond
      simp only [Bool.and_eq_true, decide_eq_true_eq] at hcond
      exact ⟨sn, hsn, hid, mem_neighborsOf_iff.mp hcond.1, hcond.2⟩
  · rintro ⟨sn, hsn, hid, hadj, hlen⟩
    refine ⟨sn, hsn, ?_⟩
    rw [if_neg hid]
    simp only [Bool.and_eq_true, decide_eq_true_eq]
    exact ⟨mem_neighborsOf_iff.mpr hadj, hlen⟩

lemma safeCond_iff {s : Snapshot} {p : Point} :
    safeCond s p = true ↔ SpecSafe s p := by
  rw [safeCond, SpecSafe]
  simp only [Bool.and_eq_true, Bool.not_eq_true', decide_eq_true_eq,
    decide_eq_false_iff_not]
  constructor
  · rintro ⟨⟨hb, hobst⟩, hrisky⟩
    refine ⟨hb, ?_, ?_⟩
    · intro hex
      exact hobst (mem_obstaclesNoTails_iff.mpr hex)
    · intro hex
      have hex' := risky_iff.mpr hex
      rw [hrisky] at hex'
      exact Bool.false_ne_true hex'
  · rintro ⟨hb, hobst, hrisky⟩
    refine ⟨⟨hb, ?_⟩, ?_⟩
    · intro hmem
      exact hobst (mem_obstaclesNoTails_iff.mp hmem)
    · cases hr : is_risky_head_collision p s with
      | false => rfl
      | true => exact absurd (risky_iff.mp hr) hrisky

/-! ## The claims -/

/-- C10: for every starting point, board dimensions and obstacle set, the
Space Evaluator returns at least 1 — the starting cell is counted
unconditionally, even when it lies in the obstacle set or outside the board
bounds. -/
theorem c10_start_counted (nx ny w h : Int) (obst : List Point) :
    1 ≤ evaluate_move_space nx ny w h obst :=
  evaluate_move_space_ge_one nx ny w h obst

/-- C3: the Space Evaluator never returns more than 50, and whenever the
start is an in-bounds non-obstacle cell whose 4-connected component of
in-bounds non-obstacle cells (here enumerated without duplicates by a list
`L`, with membership in `L` equivalent to reachability) has size below 50,
it returns exactly that component size. -/
theorem c3_flood_cap_and_exact (nx ny w h : Int) (obst : List Point) :
    evaluate_move_space nx ny w h obst ≤ 50 ∧
    (∀ L : List Point, inBounds w h ⟨nx, ny⟩ → (⟨nx, ny⟩ : Point) ∉ obst →
      L.Nodup → (∀ p, p ∈ L ↔ Reaches w h obst ⟨nx, ny⟩ p) → L.length < 50 →
      evaluate_move_space nx ny w h obst = L.length) := by
  refine ⟨evaluate_move_space_le nx ny w h obst, ?_⟩
  intro L _ _ hnd hiff hlt
  exact evaluate_move_space_exact nx ny w h obst L hnd hiff hlt

lemma reaches_unit_iff (p : Point) :
    p ∈ ([⟨0, 0⟩] : List Point) ↔ Reaches 1 1 [] ⟨0, 0⟩ p := by
  constructor
  · intro hp
    rw [List.mem_singleton] at hp
    rw [hp]
    exact Reaches.refl
  · intro hr
    induction hr with
    | refl => simp
    | step hr hb hno hadj ih =>
      exfalso
      obtain ⟨d, hd, rfl⟩ := hadj
      rw [List.mem_singleton] at ih
      subst ih
      fin_cases hd <;> exact absurd hb (by decide)

/-- Witness for C3: on a 1×1 empty board the component of the start is the
single cell `(0, 0)`, and the evaluator returns exactly 1. -/
theorem c3_witness :
    inBounds 1 1 (⟨0, 0⟩ : Point) ∧ evaluate_move_space 0 0 1 1 [] = 1 := by
  refine ⟨by decide, ?_⟩
  have h := (c3_flood_cap_and_exact 0 0 1 1 []).2 [⟨0, 0⟩] (by decide) (by decide)
    (by simp) reaches_unit_iff (by simp)
  simpa using h

/-- C4: for every well-formed snapshot and every outcome of the random
fallback, the Move Selector returns one of the four direction labels. -/
theorem c4_always_answers (s : Snapshot) (r : Nat) (hwf : s.WF) :
    choose_best_move s r ∈ (["up", "down", "left", "right"] : List String) := by
  by_cases h : get_safe_moves s = []
  · simp only [choose_best_move, h]
    have h4 : r % 4 = 0 ∨ r % 4 = 1 ∨ r % 4 = 2 ∨ r % 4 = 3 := by omega
    rcases h4 with h4 | h4 | h4 | h4 <;> rw [h4] <;> decide
  · obtain ⟨c, hc, heq⟩ := choose_mem_good r h
    rw [heq]
    have hsafe := (mem_move_scores (mem_good_moves hc)).1
    exact (mem_movesOf (safe_mem_props hsafe).1).2

/-- Witness for C4 on a concrete well-formed snapshot. -/
theorem c4_witness :
    Snapshot.WF exA3 ∧
      choose_best_move exA3 0 ∈ (["up", "down", "left", "right"] : List String) :=
  ⟨by decide, c4_always_answers exA3 0 (by decide)⟩

/-- C6: on any snapshot where the Safety Filter returns at least one
candidate, the selector's answer does not depend on the random source. -/
theorem c6_deterministic (s : Snapshot) (r1 r2 : Nat)
    (h : get_safe_moves s ≠ []) :
    choose_best_move s r1 = choose_best_move s r2 := by
  rcases hq : get_safe_moves s with _ | ⟨m0, rest⟩
  · exact absurd hq h
  · simp only [choose_best_move, hq]

/-- Witness for C6: two different random seeds give the same direction. -/
theorem c6_witness :
    get_safe_moves exA3 ≠ [] ∧ choose_best_move exA3 0 = choose_best_move exA3 7 :=
  ⟨by decide, c6_deterministic exA3 0 7 (by decide)⟩

/-- C8: whenever at least one safe move exists, the destination of the
returned direction lies within the board bounds. -/
theorem c8_bounds_respected (s : Snapshot) (r : Nat) (hwf : s.WF)
    (h : get_safe_moves s ≠ []) :
    inBounds s.board.width s.board.height
      (moveDest s.you.head (choose_best_move s r)) := by
  obtain ⟨c, hc, heq⟩ := choose_mem_good r h
  rw [heq]
  have hsafe := (mem_move_scores (mem_good_moves hc)).1
  obtain ⟨hmem, hb, _, _⟩ := safe_mem_props hsafe
  rw [(mem_movesOf hmem).1]
  exact hb

/-- Witness for C8 on a concrete snapshot with safe moves. -/
theorem c8_witness :
    Snapshot.WF exA3 ∧ get_safe_moves exA3 ≠ [] ∧
      inBounds exA3.board.width exA3.board.height
        (moveDest exA3.you.head (choose_best_move exA3 0)) :=
  ⟨by decide, by decide, c8_bounds_respected exA3 0 (by decide) (by decide)⟩

/-- C1 counterexample: in `exC1` the obstacle set is `{(0, 1)}` and the
out-of-bounds candidates avoid it, so the claim's premise (some candidate
destination avoids every obstacle cell) holds; but no candidate passes the
safety filter, the random fallback fires, and for the fallback outcome 0 the
returned direction is "up", whose destination (0, 1) IS in the obstacle
set. -/
theorem c1_counterexample :
    Snapshot.WF exC1 ∧
      (∃ mp ∈ movesOf exC1.you.head,
        mp.2 ∉ obstaclesNoTails exC1.board.snakes) ∧
      moveDest exC1.you.head (choose_best_move exC1 0)
        ∈ obstaclesNoTails exC1.board.snakes := by
  decide

/-- C1 (amended): for every well-formed snapshot in which the Safety Filter
returns at least one candidate, the destination of the returned direction is
not in the obstacle set.  (As frozen the claim only assumes that some
candidate avoids the obstacle set; `c1_counterexample` shows the random
fallback can then still enter it.) -/
theorem c1_safe_choice_avoids_obstacles (s : Snapshot) (r : Nat) (hwf : s.WF)
    (hsafe : get_safe_moves s ≠ []) :
    moveDest s.you.head (choose_best_move s r)
      ∉ obstaclesNoTails s.board.snakes := by
  obtain ⟨c, hc, heq⟩ := choose_mem_good r hsafe
  rw [heq]
  have hsafe' := (mem_move_scores (mem_good_moves hc)).1
  obtain ⟨hmem, _, hobst, _⟩ := safe_mem_props hsafe'
  rw [(mem_movesOf hmem).1]
  exact hobst

/-- Witness for the amended C1 on a concrete snapshot with safe moves. -/
theorem c1_witness :
    Snapshot.WF exA3 ∧ get_safe_moves exA3 ≠ [] ∧
      moveDest exA3.you.head (choose_best_move exA3 0)
        ∉ obstaclesNoTails exA3.board.snakes :=
  ⟨by decide, by decide, c1_safe_choice_avoids_obstacles exA3 0 (by decide) (by decide)⟩

/-- C5: the Safety Filter returns exactly those of the four candidates
(up, down, left, right from the head) whose destination is inside
`[0, width) × [0, height)`, is not one of any snake's body segments except
each snake's last one, and is not 4-adjacent to the head of another snake
whose body length is at least the acting snake's. -/
theorem c5_safety_filter_exact (s : Snapshot) (hwf : s.WF) :
    get_safe_moves s =
      ([("up", ⟨s.you.head.x, s.you.head.y + 1⟩),
        ("down", ⟨s.you.head.x, s.you.head.y - 1⟩),
        ("left", ⟨s.you.head.x - 1, s.you.head.y⟩),
        ("right", ⟨s.you.head.x + 1, s.you.head.y⟩)] :
          List (String × Point)).filter (fun mp => decide (SpecSafe s mp.2)) := by
  rw [get_safe_moves, movesOf]
  apply List.filter_congr
  intro mp _
  by_cases h : SpecSafe s mp.2
  · rw [decide_eq_true h]
    exact safeCond_iff.mpr h
  · rw [decide_eq_false h, ← Bool.not_eq_true]
    intro hc
    exact h (safeCond_iff.mp hc)

/-- Witness for C5 on the two-snake snapshot `exC1`, where bounds, body
obstacles and the head-to-head rule all come into play. -/
theorem c5_witness :
    Snapshot.WF exC1 ∧
      get_safe_moves exC1 =
        ([("up", ⟨exC1.you.head.x, exC1.you.head.y + 1⟩),
          ("down", ⟨exC1.you.head.x, exC1.you.head.y - 1⟩),
          ("left", ⟨exC1.you.head.x - 1, exC1.you.head.y⟩),
          ("right", ⟨exC1.you.head.x + 1, exC1.you.head.y⟩)] :
            List (String × Point)).filter (fun mp => decide (SpecSafe exC1 mp.2)) :=
  ⟨by decide, c5_safety_filter_exact exC1 (by decide)⟩

/-- C7 counterexample: `exHungryTrapped` is well formed, hungry (health 10)
and has food, yet no safe move exists, so the selector answers via the
random fallback and not with any candidate of the (empty) retained set —
the claim's conclusion fails while its premises hold. -/
theorem c7_counterexample :
    Snapshot.WF exHungryTrapped ∧ exHungryTrapped.you.health < 30 ∧
      exHungryTrapped.board.food ≠ [] ∧
      ¬ ∃ nf ∈ exHungryTrapped.board.food,
        IsFirstMinBy (foodKey exHungryTrapped.you.head)
          exHungryTrapped.board.food nf ∧
        ∃ c ∈ good_moves exHungryTrapped,
          choose_best_move exHungryTrapped 0 = c.1 ∧
          ∀ c' ∈ good_moves exHungryTrapped, targetKey nf c ≤ targetKey nf c' := by
  decide

/-- C7 (amended): for every well-formed snapshot with at least one safe
move, health below 30 and non-empty food, the selector returns the direction
of a retained candidate whose destination minimizes the Manhattan distance
to the nearest food (nearest = linear scan, first minimum), and this
food-seeking choice overrides the space-maximal choice.  (As frozen the
claim omits the safe-move requirement; `c7_counterexample` shows it fails
when no candidate survives the Safety Filter.) -/
theorem c7_food_priority (s : Snapshot) (r : Nat) (hwf : s.WF)
    (hsafe : get_safe_moves s ≠ []) (hh : s.you.health < 30)
    (hf : s.board.food ≠ []) :
    ∃ nf ∈ s.board.food, IsFirstMinBy (foodKey s.you.head) s.board.food nf ∧
      ∃ c ∈ good_moves s, choose_best_move s r = c.1 ∧
        ∀ c' ∈ good_moves s, targetKey nf c ≤ targetKey nf c' := by
  rcases hq : get_safe_moves s with _ | ⟨m0, rest⟩
  · exact absurd hq hsafe
  · have hg := good_moves_ne_nil hsafe
    simp only [choose_best_move, hq]
    rw [if_pos ⟨hh, hf⟩]
    obtain ⟨nf, hnf, hfm⟩ :=
      find_nearest_food_spec s.you.head.x s.you.head.y s.board.food hf
    obtain ⟨c, hc, heq, hmin⟩ := get_move_toward_target_spec s.you.head.x
      s.you.head.y nf.x nf.y (good_moves s) hg
    simp only [hnf, heq]
    exact ⟨nf, (isFirstMinBy_mem_le _ hfm).1, hfm, c, hc, rfl, hmin⟩

/-- Witness for the amended C7: in `exB` (hungry, food at (2, 1)) the
selector picks "right", the candidate reaching the food. -/
theorem c7_witness :
    Snapshot.WF exB ∧ get_safe_moves exB ≠ [] ∧ exB.you.health < 30 ∧
      exB.board.food ≠ [] ∧
      ∃ nf ∈ exB.board.food,
        IsFirstMinBy (foodKey exB.you.head) exB.board.food nf ∧
        ∃ c ∈ good_moves exB, choose_best_move exB 0 = c.1 ∧
          ∀ c' ∈ good_moves exB, targetKey nf c ≤ targetKey nf c' :=
  ⟨by decide, by decide, by decide, by decide,
    c7_food_priority exB 0 (by decide) (by decide) (by decide) (by decide)⟩

/-- C9 counterexample: `exHealthyTrapped` is well formed and does not take
the food-seeking branch (health 100, no food), yet no safe move exists, so
the retained candidate set is empty and the fallback answer is not the
direction of any retained candidate. -/
theorem c9_counterexample :
    Snapshot.WF exHealthyTrapped ∧
      ¬ (exHealthyTrapped.you.health < 30 ∧ exHealthyTrapped.board.food ≠ []) ∧
      ¬ ∃ c ∈ good_moves exHealthyTrapped,
        choose_best_move exHealthyTrapped 0 = c.1 ∧
        IsFirstMaxBy spaceKey (good_moves exHealthyTrapped) c := by
  decide

/-- C9 (amended): for every well-formed snapshot with at least one safe
move, when the food-seeking branch is not taken (health at least 30 or no
food), the selector returns the direction of the first candidate achieving
the maximum space score among the retained candidates, in enumeration order
up, down, left, right.  (As frozen the claim also covers zero-safe-move
snapshots, where the food branch is equally not taken but the fallback
answers instead; `c9_counterexample` shows that case fails.) -/
theorem c9_space_maximal (s : Snapshot) (r : Nat) (hwf : s.WF)
    (hsafe : get_safe_moves s ≠ [])
    (hnofood : ¬ (s.you.health < 30 ∧ s.board.food ≠ [])) :
    ∃ c ∈ good_moves s, choose_best_move s r = c.1 ∧
      IsFirstMaxBy spaceKey (good_moves s) c := by
  rcases hq : get_safe_moves s with _ | ⟨m0, rest⟩
  · exact absurd hq hsafe
  · have hg := good_moves_ne_nil hsafe
    simp only [choose_best_move, hq]
    rw [if_neg hnofood]
    obtain ⟨c, hc, hb, hfm⟩ := bestMove_spec hg
    exact ⟨c, hc, hb, hfm⟩

/-- Witness for the amended C9: in `exA3` (healthy, no food) the selector
returns "down", the first candidate with the maximal space score. -/
theorem c9_witness :
    Snapshot.WF exA3 ∧ get_safe_moves exA3 ≠ [] ∧
      ¬ (exA3.you.health < 30 ∧ exA3.board.food ≠ []) ∧
      ∃ c ∈ good_moves exA3, choose_best_move exA3 0 = c.1 ∧
        IsFirstMaxBy spaceKey (good_moves exA3) c :=
  ⟨by decide, by decide, by decide,
    c9_space_maximal exA3 0 (by decide) (by decide) (by decide)⟩

/-- C2 counterexample: in `exA3` the acting snake's tail cell (1, 0) is in
the obstacle set handed to the Space Evaluator but not in the Safety
Filter's obstacle set, so the two sets are not equal — the flood fill does
not share the Safety Filter's tail-exclusion. -/
theorem c2_counterexample :
    Snapshot.WF exA3 ∧ (⟨1, 0⟩ : Point) ∈ spaceObstacles exA3 ∧
      (⟨1, 0⟩ : Point) ∉ obstaclesNoTails exA3.board.snakes ∧
      ¬ (∀ p : Point, p ∈ spaceObstacles exA3 ↔
          p ∈ obstaclesNoTails exA3.board.snakes) := by
  refine ⟨by decide, by decide, by decide, fun hall => ?_⟩
  exact absurd ((hall ⟨1, 0⟩).mp (by decide)) (by decide)

/-- C2 (amended): the obstacle set used for flood-fill space scoring is the
union over all snakes of every body-segment Point including each snake's
tail; it is a superset of the Safety Filter's obstacle set (which drops each
snake's last segment), not equal to it. -/
theorem c2_space_obstacle_set (s : Snapshot) (p : Point) :
    (p ∈ spaceObstacles s ↔ ∃ sn ∈ s.board.snakes, p ∈ sn.body) ∧
      (p ∈ obstaclesNoTails s.board.snakes → p ∈ spaceObstacles s) := by
  constructor
  · rw [spaceObstacles]
    exact List.mem_flatMap
  · intro hp
    rw [obstaclesNoTails, List.mem_flatMap] at hp
    obtain ⟨sn, hsn, hp⟩ := hp
    rw [spaceObstacles, List.mem_flatMap]
    exact ⟨sn, hsn, List.dropLast_subset _ hp⟩

/-- Witness for the amended C2 at the concrete point (1, 1) of `exA3`,
which lies in both obstacle sets. -/
theorem c2_witness :
    ((⟨1, 1⟩ : Point) ∈ spaceObstacles exA3 ↔
      ∃ sn ∈ exA3.board.snakes, (⟨1, 1⟩ : Point) ∈ sn.body) ∧
      (⟨1, 1⟩ : Point) ∈ spaceObstacles exA3 :=
  ⟨(c2_space_obstacle_set exA3 ⟨1, 1⟩).1,
    (c2_space_obstacle_set exA3 ⟨1, 1⟩).2 (by decide)⟩
